import Mathlib

/-!
Verification of the transcript-to-structured-data pipeline of the legal-intake
repository: the chunker (`src/lib/ai/chunker.ts`, shown inside `extractor.ts`),
the token estimator (`token-estimator.ts`), the section merger
(`specialized-merger.ts`) and the orchestrator (`processor.ts`).

Strings are modelled as `List Char`.  JavaScript numbers that only ever hold
integer values (positions, token counts, fault percentages) are modelled as
`Nat`; the float expressions `x * 0.25`, `x / 0.25` and `Math.round(s / n)` are
exact on these integer inputs and are translated to `(x + 3) / 4`, `4 * x` and
`(2 * s + n) / (2 * n)` respectively.
-/

set_option maxRecDepth 10000

abbrev Str := List Char

/-- `estimateTokens` from `token-estimator.ts`: `Math.ceil(text.length * 0.25)`,
i.e. the number of characters divided by four, rounded up. -/
def estimateTokens (text : Str) : Nat := (text.length + 3) / 4

/-- `estimateCharactersForTokens` from `token-estimator.ts`:
`Math.floor(tokens / 0.25)` = `4 * tokens`. -/
def estimateCharactersForTokens (tokens : Nat) : Nat := 4 * tokens

/-- `text.substring(a, b)` for `a ≤ b` (the only way the chunker calls it). -/
def jsSubstring (text : Str) (a b : Nat) : Str := (text.take b).drop a

/-- Does `needle` occur in `hay` starting at index `i`? -/
def occursAt (needle hay : Str) (i : Nat) : Bool :=
  decide ((hay.drop i).take needle.length = needle)

/-- `hay.lastIndexOf(needle)`: the greatest index at which `needle` occurs,
`none` when JavaScript would return `-1`. -/
def lastOccurrence (needle hay : Str) : Option Nat :=
  ((List.range (hay.length + 1)).reverse).find? (occursAt needle hay)

/-- The JavaScript regular-expression class `\s`. -/
def isJsWs (c : Char) : Bool :=
  let n := c.toNat
  n == 0x09 || n == 0x0A || n == 0x0B || n == 0x0C || n == 0x0D || n == 0x20 ||
  n == 0xA0 || n == 0x1680 || (0x2000 ≤ n && n ≤ 0x200A) || n == 0x2028 ||
  n == 0x2029 || n == 0x202F || n == 0x205F || n == 0x3000 || n == 0xFEFF

def isSentencePunct (c : Char) : Bool := c == '.' || c == '!' || c == '?'

def isUpperAZ (c : Char) : Bool := 'A' ≤ c && c ≤ 'Z'

/-- Skip a (possibly empty) run of whitespace and test whether the first
character after it is an upper-case letter. -/
def upperAfterWs : Str → Bool
  | [] => false
  | c :: rest => if isJsWs c then upperAfterWs rest else isUpperAZ c

/-- At least one whitespace character, then (after the whitespace run) an
upper-case letter: the `\s+(?=[A-Z])` part of the sentence regex. -/
def wsRunThenUpper : Str → Bool
  | [] => false
  | c :: rest => isJsWs c && upperAfterWs rest

/-- Does the sentence-end regex `[.!?]\s+(?=[A-Z])` match `hay` at index `i`?
(The greedy `\s+` must stop exactly at the end of the whitespace run for the
look-ahead to see a capital letter.) -/
def sentenceMatchAt (hay : Str) (i : Nat) : Bool :=
  match hay[i]? with
  | some c => isSentencePunct c && wsRunThenUpper (hay.drop (i + 1))
  | none => false

/-- The index of the last match of the sentence-end regex, as computed by the
`exec` loop in `findChunkEnd` (successive matches never overlap a later match
start, so the loop's final `match.index` is the greatest matching index). -/
def lastSentenceEnd (hay : Str) : Option Nat :=
  ((List.range hay.length).reverse).find? (sentenceMatchAt hay)

def speakerNeedle : Str := "\n[Speaker ".toList

def paragraphNeedle : Str := "\n\n".toList

/-- `findChunkEnd` from the chunker: candidate end from the character budget,
then a bounded backward search for the best break point
(speaker change > paragraph break > sentence end > word boundary > hard cut). -/
def findChunkEnd (text : Str) (start maxTokens : Nat) : Nat :=
  let estimatedChars := 4 * maxTokens
  let endPosition := min (start + estimatedChars) text.length
  if text.length ≤ endPosition then
    text.length
  else
    let searchWindow := max start (endPosition - 200)
    let window := jsSubstring text searchWindow endPosition
    match lastOccurrence speakerNeedle window with
    | some i => searchWindow + i
    | none =>
      match lastOccurrence paragraphNeedle window with
      | some i => searchWindow + i
      | none =>
        match lastSentenceEnd window with
        | some i => searchWindow + i + 1
        | none =>
          match lastOccurrence [' '] window with
          | some i => searchWindow + i
          | none => endPosition

structure Segment where
  speaker : Nat
  content : Str
deriving DecidableEq

structure Transcript where
  segments : List Segment
deriving DecidableEq

/-- One segment rendered as `[Speaker {speaker}]: {content}`. -/
def renderSegment (seg : Segment) : Str :=
  "[Speaker ".toList ++ Nat.toDigits 10 seg.speaker ++ "]: ".toList ++ seg.content

/-- The flattened transcript: rendered segments joined by a blank line. -/
def flattenTranscript (t : Transcript) : Str :=
  List.intercalate "\n\n".toList (t.segments.map renderSegment)

/-- The `while (currentPosition < fullText.length)` loop of `chunkTranscript`,
recording each emitted chunk as its span `(currentPosition, chunkEndPosition)`.
The source loop has no termination guarantee, so the embedding carries `fuel`;
`none` means the loop is still running after `fuel` iterations. -/
def chunkLoop (text : Str) (maxChunkTokens overlapTokens : Nat) :
    Nat → Nat → List (Nat × Nat) → Option (List (Nat × Nat))
  | 0, currentPosition, acc =>
    if currentPosition < text.length then none else some acc.reverse
  | fuel + 1, currentPosition, acc =>
    if currentPosition < text.length then
      let chunkEndPosition := findChunkEnd text currentPosition maxChunkTokens
      let overlapCharOffset := estimateCharactersForTokens overlapTokens
      let nextPosition := chunkEndPosition - overlapCharOffset
      let pos' := if nextPosition ≤ currentPosition then chunkEndPosition else nextPosition
      chunkLoop text maxChunkTokens overlapTokens fuel pos' ((currentPosition, chunkEndPosition) :: acc)
    else some acc.reverse

/-- `chunkTranscript`, producing the spans of the emitted chunks. -/
def chunkSpans (fuel : Nat) (t : Transcript) (maxChunkTokens overlapTokens : Nat) :
    Option (List (Nat × Nat)) :=
  let fullText := flattenTranscript t
  if estimateTokens fullText ≤ maxChunkTokens then some [(0, fullText.length)]
  else chunkLoop fullText maxChunkTokens overlapTokens fuel 0 []

/-- `chunkTranscript` from the chunker; each emitted chunk is
`fullText.substring(currentPosition, chunkEndPosition)`. -/
def chunkTranscript (fuel : Nat) (t : Transcript) (maxChunkTokens overlapTokens : Nat) :
    Option (List Str) :=
  (chunkSpans fuel t maxChunkTokens overlapTokens).map
    (fun spans => spans.map (fun pe => jsSubstring (flattenTranscript t) pe.1 pe.2))

inductive CaseType
  | dog_bites
  | mva
  | slip_and_fall
deriving DecidableEq

/-- The string value behind each `caseType` enum member (used for the JavaScript
truthiness tests in the merger: a non-empty string is truthy). -/
def caseTypeStr : CaseType → String
  | .dog_bites => "dog_bites"
  | .mva => "mva"
  | .slip_and_fall => "slip_and_fall"

/-- `ClientInfo` from `specialized-schemas.ts` (`caseType` is a required enum;
every other field is nullable/optional). -/
structure ClientInfo where
  caseType : CaseType
  clientName : Option String
  clientDob : Option String
  clientPhone : Option String
  clientEmail : Option String
  clientAddress : Option String
  incidentDate : Option String
  incidentLocation : Option String
deriving DecidableEq

/-- JavaScript truthiness of a nullable string: `null`, `undefined` and the
empty string are falsy. -/
def jsTruthyStr : Option String → Bool
  | none => false
  | some s => s != ""

/-- `x || null` for a nullable string `x`. -/
def jsOrNullStr (o : Option String) : Option String :=
  if jsTruthyStr o then o else none

/-- `mergeClientInfo` from `specialized-merger.ts`: reverse the list and, for
each field, use the first entry whose value is truthy
(`reversed.find((i) => i.field)?.field || fallback`). -/
def mergeClientInfo (infos : List ClientInfo) : ClientInfo :=
  let reversed := infos.reverse
  { caseType :=
      match (reversed.find? (fun i => caseTypeStr i.caseType != "")).map (·.caseType) with
      | some ct => if caseTypeStr ct == "" then CaseType.mva else ct
      | none => CaseType.mva
    clientName := jsOrNullStr ((reversed.find? (fun i => jsTruthyStr i.clientName)).bind (·.clientName))
    clientDob := jsOrNullStr ((reversed.find? (fun i => jsTruthyStr i.clientDob)).bind (·.clientDob))
    clientPhone := jsOrNullStr ((reversed.find? (fun i => jsTruthyStr i.clientPhone)).bind (·.clientPhone))
    clientEmail := jsOrNullStr ((reversed.find? (fun i => jsTruthyStr i.clientEmail)).bind (·.clientEmail))
    clientAddress := jsOrNullStr ((reversed.find? (fun i => jsTruthyStr i.clientAddress)).bind (·.clientAddress))
    incidentDate := jsOrNullStr ((reversed.find? (fun i => jsTruthyStr i.incidentDate)).bind (·.incidentDate))
    incidentLocation := jsOrNullStr ((reversed.find? (fun i => jsTruthyStr i.incidentLocation)).bind (·.incidentLocation)) }

inductive AtFault
  | client
  | other_party
  | shared
  | unclear
deriving DecidableEq

/-- Fault percentages; the schema constrains both numbers to 0–100 and the data
model (§3) fixes them as integers, so they are modelled as `Nat`. -/
structure FaultPercentages where
  client : Nat
  otherParty : Nat
deriving DecidableEq

/-- The placeholder `Evidence` object of the schemas (all fields optional). -/
structure Evidence where
  id : Option String
  kind : Option String
  description : Option String
  url : Option String
deriving DecidableEq

/-- `Liability` from `specialized-schemas.ts`; `evidence` is an optional array
whose elements are themselves optional. -/
structure Liability where
  atFault : AtFault
  faultPercentages : Option FaultPercentages
  rationale : String
  hasPoliceReport : Bool
  evidence : Option (List (Option Evidence))
deriving DecidableEq

/-- `String.prototype.trim`, which strips the `\s` class from both ends. -/
def jsTrim (s : String) : String :=
  ⟨((s.toList.dropWhile (fun c => isJsWs c)).reverse.dropWhile (fun c => isJsWs c)).reverse⟩

/-- `[...new Set(points)]`: deduplicate keeping the first occurrence of each
string, in order. -/
def dedupFirst : List String → List String → List String
  | _, [] => []
  | seen, x :: rest =>
    if x ∈ seen then dedupFirst seen rest else x :: dedupFirst (x :: seen) rest

/-- The chunks that independently reported `shared` fault with percentages
present (`l.atFault === "shared" && l.faultPercentages`; an object is always
truthy, so the second conjunct is presence). -/
def sharedWithPerc (liabilities : List Liability) : List Liability :=
  liabilities.filter (fun l => l.atFault == AtFault.shared && l.faultPercentages.isSome)

/-- `Math.round(sum / n)` for natural `sum` and positive `n`:
`⌊sum / n + 1 / 2⌋ = (2 * sum + n) / (2 * n)` (JavaScript rounds halves up, and
for these integer inputs the float division is exact enough that the rounded
result equals the exact one). -/
def jsRoundDiv (sum n : Nat) : Nat := (2 * sum + n) / (2 * n)

/-- `mergeLiability` from `specialized-merger.ts`. -/
def mergeLiability (liabilities : List Liability) : Liability :=
  let allPoints :=
    (liabilities.flatMap (fun l =>
      (l.rationale.splitOn "\n").filter
        (fun line => (jsTrim line).startsWith "-" || (jsTrim line).startsWith "*"))).map jsTrim
  let uniquePoints := dedupFirst [] allPoints
  let hasPoliceReport := liabilities.any (·.hasPoliceReport)
  let atFault := ((liabilities.map (·.atFault)).find? (fun f => f != AtFault.unclear)).getD AtFault.unclear
  let faultPercentages : Option FaultPercentages :=
    if atFault = AtFault.shared then
      let sharedLiabilities := sharedWithPerc liabilities
      if 0 < sharedLiabilities.length then
        let sumClient := sharedLiabilities.foldl
          (fun s l => s + ((l.faultPercentages.map (·.client)).getD 0)) 0
        let sumOtherParty := sharedLiabilities.foldl
          (fun s l => s + ((l.faultPercentages.map (·.otherParty)).getD 0)) 0
        some ⟨jsRoundDiv sumClient sharedLiabilities.length,
              jsRoundDiv sumOtherParty sharedLiabilities.length⟩
      else none
    else none
  { atFault := atFault
    faultPercentages := faultPercentages
    rationale := String.intercalate "\n" uniquePoints
    hasPoliceReport := hasPoliceReport
    evidence := some [] }

inductive Severity
  | low
  | medium
  | high
deriving DecidableEq

/-- The `severityOrder` table of `mergeDamages`. -/
def severityOrder : Severity → Nat
  | .low => 1
  | .medium => 2
  | .high => 3

structure Indication where
  description : String
  severity : Severity
  evidence : Option (List (Option Evidence))
deriving DecidableEq

structure Damages where
  severity : Severity
  indications : List Indication
deriving DecidableEq

/-- ASCII model of `String.prototype.toLowerCase`. -/
def jsToLower (s : String) : String := ⟨s.toList.map Char.toLower⟩

/-- The `seen`-set filter of `mergeDamages`: keep an indication only when the
lower-cased trimmed description has not been seen before. -/
def dedupIndications : List String → List Indication → List Indication
  | _, [] => []
  | seen, ind :: rest =>
    let key := jsToLower (jsTrim ind.description)
    if key ∈ seen then dedupIndications seen rest
    else ind :: dedupIndications (key :: seen) rest

/-- `mergeDamages` from `specialized-merger.ts`: highest severity wins and
indications are concatenated then deduplicated. -/
def mergeDamages (damages : List Damages) : Damages :=
  let severity := damages.foldl
    (fun mx d => if severityOrder mx < severityOrder d.severity then d.severity else mx)
    Severity.low
  let allIndications := damages.flatMap (·.indications)
  { severity := severity, indications := dedupIndications [] allIndications }

/-- `Coverage` from `specialized-schemas.ts` (every field nullable). -/
structure Coverage where
  clientHasInsurance : Option Bool
  clientInsuranceProvider : Option String
  clientPolicyNumber : Option String
  clientCoverageEffectiveDate : Option String
  clientCoverageExpirationDate : Option String
  clientCoverageDetails : Option String
  otherPartyHasInsurance : Option Bool
  otherPartyInsuranceProvider : Option String
  otherPartyPolicyNumber : Option String
  otherPartyCoverageEffectiveDate : Option String
  otherPartyCoverageExpirationDate : Option String
  otherPartyCoverageDetails : Option String
  medicalCoverageAvailable : Option Bool
  medicalCoverageDetails : Option String
  underinsuredMotoristCoverage : Option Bool
  policyLimits : Option String
  notes : Option String
deriving DecidableEq

/-- The JavaScript nullish-coalescing operator: `curr ?? acc`. -/
def jsNullish {α : Type} (curr acc : Option α) : Option α :=
  match curr with
  | some v => some v
  | none => acc

/-- One step of the `reduce` in `mergeCoverage`:
`(acc, curr) => ({ field: curr.field ?? acc.field, ... })`. -/
def mergeCoverage2 (acc curr : Coverage) : Coverage :=
  { clientHasInsurance := jsNullish curr.clientHasInsurance acc.clientHasInsurance
    clientInsuranceProvider := jsNullish curr.clientInsuranceProvider acc.clientInsuranceProvider
    clientPolicyNumber := jsNullish curr.clientPolicyNumber acc.clientPolicyNumber
    clientCoverageEffectiveDate := jsNullish curr.clientCoverageEffectiveDate acc.clientCoverageEffectiveDate
    clientCoverageExpirationDate := jsNullish curr.clientCoverageExpirationDate acc.clientCoverageExpirationDate
    clientCoverageDetails := jsNullish curr.clientCoverageDetails acc.clientCoverageDetails
    otherPartyHasInsurance := jsNullish curr.otherPartyHasInsurance acc.otherPartyHasInsurance
    otherPartyInsuranceProvider := jsNullish curr.otherPartyInsuranceProvider acc.otherPartyInsuranceProvider
    otherPartyPolicyNumber := jsNullish curr.otherPartyPolicyNumber acc.otherPartyPolicyNumber
    otherPartyCoverageEffectiveDate := jsNullish curr.otherPartyCoverageEffectiveDate acc.otherPartyCoverageEffectiveDate
    otherPartyCoverageExpirationDate := jsNullish curr.otherPartyCoverageExpirationDate acc.otherPartyCoverageExpirationDate
    otherPartyCoverageDetails := jsNullish curr.otherPartyCoverageDetails acc.otherPartyCoverageDetails
    medicalCoverageAvailable := jsNullish curr.medicalCoverageAvailable acc.medicalCoverageAvailable
    medicalCoverageDetails := jsNullish curr.medicalCoverageDetails acc.medicalCoverageDetails
    underinsuredMotoristCoverage := jsNullish curr.underinsuredMotoristCoverage acc.underinsuredMotoristCoverage
    policyLimits := jsNullish curr.policyLimits acc.policyLimits
    notes := jsNullish curr.notes acc.notes }

/-- `mergeCoverage` from `specialized-merger.ts`: `coverages.reduce(...)`.
JavaScript `reduce` without an initial value seeds the accumulator with the
first element and throws on an empty array (`none` here). -/
def mergeCoverage : List Coverage → Option Coverage
  | [] => none
  | c :: rest => some (rest.foldl mergeCoverage2 c)

/-- `ChunkExtraction` from `specialized-extractor.ts`. -/
structure ChunkExtraction where
  clientInfo : ClientInfo
  liability : Liability
  damages : Damages
  coverage : Coverage
deriving DecidableEq

/-- `mergeChunkExtractions` from `specialized-merger.ts`: throws on an empty
list (`none` here), returns a single extraction unchanged, and otherwise merges
section-wise.  `mergeCoverage` of the (non-empty) coverage list is written as
its seeded fold. -/
def mergeChunkExtractions : List ChunkExtraction → Option ChunkExtraction
  | [] => none
  | [e] => some e
  | e₁ :: e₂ :: rest =>
    let es := e₁ :: e₂ :: rest
    some { clientInfo := mergeClientInfo (es.map (·.clientInfo))
           liability := mergeLiability (es.map (·.liability))
           damages := mergeDamages (es.map (·.damages))
           coverage := ((e₂ :: rest).map (·.coverage)).foldl mergeCoverage2 e₁.coverage }

/-- `AI_CONFIG` from `config.ts`.  `ESTIMATED_TOKENS_PER_CHAR = 0.25` is baked
into the token-estimator embedding; `MODEL` and `TEMPERATURE` only parameterize
the external backend. -/
structure AIConfig where
  MAX_CHUNK_TOKENS : Nat
  OVERLAP_TOKENS : Nat
  MAX_RETRIES : Nat

def AI_CONFIG : AIConfig :=
  { MAX_CHUNK_TOKENS := 30000, OVERLAP_TOKENS := 2000, MAX_RETRIES := 2 }

/-- The extraction backend (`extractFromChunkParallel`) as an oracle: for chunk
index `i` and attempt number `k`, either a `ChunkExtraction` (all four parallel
calls succeeded) or `none` (the awaited `Promise.all` threw). -/
def Backend := Nat → Nat → Option ChunkExtraction

/-- The per-chunk try/retry of `processTranscript`: attempt 0, and on failure a
single retry (attempt 1) guarded by `AI_CONFIG.MAX_RETRIES > 0`; the chunk is
skipped when that also fails. -/
def attemptChunk (b : Backend) (i : Nat) : Option ChunkExtraction :=
  match b i 0 with
  | some extraction => some extraction
  | none => if 0 < AI_CONFIG.MAX_RETRIES then b i 1 else none

/-- The `for` loop of `processTranscript` over chunk indices `i, i+1, ...`
(`remaining` indices left), pushing each successful extraction in order. -/
def collectFrom (b : Backend) : Nat → Nat → List ChunkExtraction
  | _, 0 => []
  | i, remaining + 1 =>
    match attemptChunk b i with
    | some extraction => extraction :: collectFrom b (i + 1) remaining
    | none => collectFrom b (i + 1) remaining

def collectExtractions (b : Backend) (numChunks : Nat) : List ChunkExtraction :=
  collectFrom b 0 numChunks

/-- The tail of `processTranscript` after chunking: run every chunk through the
backend (with the retry policy), throw when no chunk succeeded, otherwise merge
the successful extractions.  The backend only sees each chunk's text and
position, both functions of the chunk index, so it is indexed by `i`. -/
def processChunks (b : Backend) (numChunks : Nat) : Except String ChunkExtraction :=
  let extractions := collectExtractions b numChunks
  if extractions.length = 0 then Except.error "All chunks failed to process"
  else
    match mergeChunkExtractions extractions with
    | some merged => Except.ok merged
    | none => Except.error "No extractions to merge"

/-- `processTranscript` from `processor.ts`: chunk with the configured
parameters, then extract and merge; `none` when the chunker diverges. -/
def processTranscript (fuel : Nat) (b : Backend) (t : Transcript) :
    Option (Except String ChunkExtraction) :=
  (chunkTranscript fuel t AI_CONFIG.MAX_CHUNK_TOKENS AI_CONFIG.OVERLAP_TOKENS).map
    (fun chunks => processChunks b chunks.length)

/-- The cursor update at the end of one loop iteration: advance to
`chunkEndPosition - overlapCharOffset`, or to `chunkEndPosition` itself when
that would not make progress. -/
def nextCursor (pos e ovl : Nat) : Nat :=
  if e - estimateCharactersForTokens ovl ≤ pos then e
  else e - estimateCharactersForTokens ovl

/-- The spans a terminating run of the chunk loop emits from cursor `pos`:
each span starts at the cursor, ends at `findChunkEnd`, and the cursor is
advanced by `nextCursor`; the list ends exactly when the cursor has reached the
end of the text. -/
def GoodSpans (text : Str) (maxTok ovl : Nat) : Nat → List (Nat × Nat) → Prop
  | pos, [] => text.length ≤ pos
  | pos, (p, e) :: rest =>
    pos < text.length ∧ p = pos ∧ e = findChunkEnd text pos maxTok ∧
    GoodSpans text maxTok ovl (nextCursor pos e ovl) rest

/-- Concatenation of the non-overlapping portions of a span list: the cursor
`cur` tracks how far the previous chunks reached, and each chunk `(p, e)`
contributes only its part beyond `cur` (its suffix `text[cur, e)`, empty when
the chunk ends before `cur`). -/
def reconcat (text : Str) : Nat → List (Nat × Nat) → Str
  | _, [] => []
  | cur, (_, e) :: rest =>
    jsSubstring text cur (max cur e) ++ reconcat text (max cur e) rest

/-- Last-non-null-wins over a list of nullable values (the spec's description
of the Coverage merge). -/
def lastNonNull {α : Type} (l : List (Option α)) : Option α :=
  (l.filterMap id).getLast?

/-- Scan a list of nullable strings from last to first and keep the first
truthy value (non-null and non-empty). -/
def lastTruthy (l : List (Option String)) : Option String :=
  ((l.reverse).find? jsTruthyStr).join

/-- Scan a list of nullable strings from last to first and keep the first
non-null value — the ClientInfo merge rule exactly as claim C6 words it. -/
def firstNonNullFromLast (l : List (Option String)) : Option String :=
  ((l.reverse).find? (fun o => o.isSome)).join

/-- The fault-percentage objects of exactly the chunks that reported `shared`
with percentages present. -/
def sharedPercList (liabilities : List Liability) : List FaultPercentages :=
  (sharedWithPerc liabilities).filterMap (·.faultPercentages)

/-- A transcript on which the chunk loop never terminates when called with
`maxChunkTokens = 1` and `overlapTokens = 0`. -/
def divergentTranscript : Transcript := ⟨[⟨0, "hello world".toList⟩]⟩

/-- A short transcript that fits in a single chunk under the default
configuration. -/
def demoTranscript : Transcript := ⟨[⟨0, "Hi".toList⟩, ⟨1, "Hello".toList⟩]⟩

def emptyCoverage : Coverage :=
  { clientHasInsurance := none, clientInsuranceProvider := none
    clientPolicyNumber := none, clientCoverageEffectiveDate := none
    clientCoverageExpirationDate := none, clientCoverageDetails := none
    otherPartyHasInsurance := none, otherPartyInsuranceProvider := none
    otherPartyPolicyNumber := none, otherPartyCoverageEffectiveDate := none
    otherPartyCoverageExpirationDate := none, otherPartyCoverageDetails := none
    medicalCoverageAvailable := none, medicalCoverageDetails := none
    underinsuredMotoristCoverage := none, policyLimits := none, notes := none }

def emptyClientInfo : ClientInfo :=
  { caseType := CaseType.mva, clientName := none, clientDob := none
    clientPhone := none, clientEmail := none, clientAddress := none
    incidentDate := none, incidentLocation := none }

def unclearLiability : Liability :=
  { atFault := AtFault.unclear, faultPercentages := none, rationale := ""
    hasPoliceReport := false, evidence := none }

/-- A `shared` liability with percentages 40/60. -/
def sharedLia40 : Liability :=
  { unclearLiability with atFault := AtFault.shared, faultPercentages := some ⟨40, 60⟩ }

/-- A `shared` liability with percentages 20/80. -/
def sharedLia20 : Liability :=
  { unclearLiability with atFault := AtFault.shared, faultPercentages := some ⟨20, 80⟩ }

/-- A `shared` liability that carries no fault percentages (the schema leaves
`faultPercentages` optional). -/
def sharedNoPerc : Liability := { unclearLiability with atFault := AtFault.shared }

/-- ClientInfo whose only known field is the name `Alice`. -/
def aliceInfo : ClientInfo := { emptyClientInfo with clientName := some "Alice" }

/-- ClientInfo whose name is present but is the empty string (a legal schema
value: the name is merely nullable). -/
def blankNameInfo : ClientInfo := { emptyClientInfo with clientName := some "" }

def demoExtraction : ChunkExtraction :=
  { clientInfo := emptyClientInfo, liability := unclearLiability
    damages := { severity := Severity.low, indications := [] }
    coverage := emptyCoverage }

/-- A backend whose chunk 0 succeeds on the first attempt and whose other
chunks always fail. -/
def demoBackend : Backend :=
  fun i k => if i = 0 ∧ k = 0 then some demoExtraction else none

/-- A backend that fails attempts 0 and 1 but would succeed on attempt 2. -/
def thirdTryBackend : Backend :=
  fun _ k => if k = 2 then some demoExtraction else none

/-- A backend that always fails. -/
def failBackend : Backend := fun _ _ => none

/-- Claim C9: a transcript whose flattened text (segments rendered as
`[Speaker {speaker}]: {content}` and joined by a blank line) has an estimated
token count at most `maxChunkTokens` produces exactly one chunk, and that chunk
is the full flattened text. -/
theorem single_chunk_identity (fuel : Nat) (t : Transcript)
    (maxChunkTokens overlapTokens : Nat)
    (h : estimateTokens (flattenTranscript t) ≤ maxChunkTokens) :
    chunkTranscript fuel t maxChunkTokens overlapTokens = some [flattenTranscript t] := by
  simp only [chunkTranscript, chunkSpans, if_pos h, Option.map_some']
  simp [jsSubstring]

/-- Witness for C9 at a concrete two-segment transcript under the default
configuration. -/
theorem single_chunk_identity_witness :
    chunkTranscript 1 demoTranscript 30000 2000 = some [flattenTranscript demoTranscript] :=
  single_chunk_identity 1 demoTranscript 30000 2000 (by decide)

/-- Claim C10: whenever two or more extractions are merged, the merged
liability's evidence list is empty regardless of the per-chunk evidence; a
single extraction is returned unchanged (evidence intact). -/
theorem merged_liability_evidence_empty :
    (∀ (e₁ e₂ : ChunkExtraction) (rest : List ChunkExtraction),
      ∃ m, mergeChunkExtractions (e₁ :: e₂ :: rest) = some m ∧
        m.liability.evidence = some []) ∧
    (∀ e : ChunkExtraction, mergeChunkExtractions [e] = some e) :=
  ⟨fun _ _ _ => ⟨_, rfl, rfl⟩, fun _ => rfl⟩

theorem chunkLoop_step (text : Str) (maxTok ovl fuel pos : Nat)
    (acc : List (Nat × Nat)) (h : pos < text.length) :
    chunkLoop text maxTok ovl (fuel + 1) pos acc =
      chunkLoop text maxTok ovl fuel
        (nextCursor pos (findChunkEnd text pos maxTok) ovl)
        ((pos, findChunkEnd text pos maxTok) :: acc) := by
  rw [chunkLoop, if_pos h]
  rfl

theorem chunkLoop_exit (text : Str) (maxTok ovl fuel pos : Nat)
    (acc : List (Nat × Nat)) (h : ¬ pos < text.length) :
    chunkLoop text maxTok ovl fuel pos acc = some acc.reverse := by
  cases fuel <;> rw [chunkLoop, if_neg h]

theorem chunkLoop_zero (text : Str) (maxTok ovl pos : Nat)
    (acc : List (Nat × Nat)) (h : pos < text.length) :
    chunkLoop text maxTok ovl 0 pos acc = none := by
  rw [chunkLoop, if_pos h]

theorem chunkLoop_stuck_at8 : ∀ (fuel : Nat) (acc : List (Nat × Nat)),
    chunkLoop (flattenTranscript divergentTranscript) 1 0 fuel 8 acc = none := by
  intro fuel
  induction fuel with
  | zero => intro acc; exact chunkLoop_zero _ _ _ _ _ (by decide)
  | succ f ih =>
    intro acc
    rw [chunkLoop_step _ _ _ _ _ _ (by decide)]
    have h8 : nextCursor 8 (findChunkEnd (flattenTranscript divergentTranscript) 8 1) 0 = 8 := by
      decide
    rw [h8]
    exact ih _

/-- Claim C1 is false of the code: on the one-segment transcript
`"hello world"` with `maxTokensPerChunk = 1` and `overlapTokens = 0` the cursor
reaches position 8, `findChunkEnd` returns 8 (the word-boundary lookback finds
the space at the cursor itself), and the progress guard sets
`currentPosition = chunkEndPosition = 8`: the loop never terminates, whatever
iteration budget it is given. -/
theorem chunker_divergence :
    ∀ fuel : Nat, chunkTranscript fuel divergentTranscript 1 0 = none := by
  intro fuel
  simp only [chunkTranscript, chunkSpans, if_neg (by decide :
    ¬ estimateTokens (flattenTranscript divergentTranscript) ≤ 1)]
  suffices h : chunkLoop (flattenTranscript divergentTranscript) 1 0 fuel 0 [] = none by
    rw [h]; rfl
  cases fuel with
  | zero => exact chunkLoop_zero _ _ _ _ _ (by decide)
  | succ f =>
    rw [chunkLoop_step _ _ _ _ _ _ (by decide)]
    have h4 : nextCursor 0 (findChunkEnd (flattenTranscript divergentTranscript) 0 1) 0 = 4 := by
      decide
    rw [h4]
    cases f with
    | zero => exact chunkLoop_zero _ _ _ _ _ (by decide)
    | succ f' =>
      rw [chunkLoop_step _ _ _ _ _ _ (by decide)]
      have h8 : nextCursor 4 (findChunkEnd (flattenTranscript divergentTranscript) 4 1) 0 = 8 := by
        decide
      rw [h8]
      exact chunkLoop_stuck_at8 f' _

theorem lastOccurrence_le {needle hay : Str} {i : Nat}
    (h : lastOccurrence needle hay = some i) : i ≤ hay.length := by
  have hm := List.mem_of_find?_eq_some h
  rw [List.mem_reverse, List.mem_range] at hm
  omega

theorem lastSentenceEnd_lt {hay : Str} {i : Nat}
    (h : lastSentenceEnd hay = some i) : i < hay.length := by
  have hm := List.mem_of_find?_eq_some h
  rw [List.mem_reverse, List.mem_range] at hm
  exact hm

theorem jsSubstring_length (text : Str) (a b : Nat) :
    (jsSubstring text a b).length = min b text.length - a := by
  simp [jsSubstring]

theorem findChunkEnd_le (text : Str) (start maxTokens : Nat) :
    findChunkEnd text start maxTokens ≤ text.length := by
  simp only [findChunkEnd]
  split
  · exact Nat.le_refl _
  next hend =>
    split
    next i heq =>
      have h1 := lastOccurrence_le heq
      rw [jsSubstring_length] at h1
      omega
    next =>
      split
      next i heq =>
        have h1 := lastOccurrence_le heq
        rw [jsSubstring_length] at h1
        omega
      next =>
        split
        next i heq =>
          have h1 := lastSentenceEnd_lt heq
          rw [jsSubstring_length] at h1
          omega
        next =>
          split
          next i heq =>
            have h1 := lastOccurrence_le heq
            rw [jsSubstring_length] at h1
            omega
          next => omega

theorem le_findChunkEnd (text : Str) {start : Nat} (h : start ≤ text.length)
    (maxTokens : Nat) : start ≤ findChunkEnd text start maxTokens := by
  simp only [findChunkEnd]
  split
  · exact h
  next hend =>
    split
    next i heq => omega
    next =>
      split
      next i heq => omega
      next =>
        split
        next i heq => omega
        next =>
          split
          next i heq => omega
          next => omega

theorem chunkLoop_sound (text : Str) (maxTok ovl : Nat) :
    ∀ (fuel pos : Nat) (acc spans : List (Nat × Nat)),
      chunkLoop text maxTok ovl fuel pos acc = some spans →
      ∃ tail, spans = acc.reverse ++ tail ∧ GoodSpans text maxTok ovl pos tail := by
  intro fuel
  induction fuel with
  | zero =>
    intro pos acc spans h
    by_cases hp : pos < text.length
    · rw [chunkLoop_zero _ _ _ _ _ hp] at h; cases h
    · rw [chunkLoop_exit _ _ _ _ _ _ hp] at h
      refine ⟨[], ?_, ?_⟩
      · rw [← Option.some_inj.mp h, List.append_nil]
      · simp only [GoodSpans]; omega
  | succ f ih =>
    intro pos acc spans h
    by_cases hp : pos < text.length
    · rw [chunkLoop_step _ _ _ _ _ _ hp] at h
      obtain ⟨tail, htail, hgood⟩ := ih _ _ _ h
      refine ⟨(pos, findChunkEnd text pos maxTok) :: tail, ?_, ?_⟩
      · rw [htail]; simp
      · exact ⟨hp, rfl, rfl, hgood⟩
    · rw [chunkLoop_exit _ _ _ _ _ _ hp] at h
      refine ⟨[], ?_, ?_⟩
      · rw [← Option.some_inj.mp h, List.append_nil]
      · simp only [GoodSpans]; omega

theorem nextCursor_le (pos e ovl : Nat) : nextCursor pos e ovl ≤ e := by
  unfold nextCursor
  split <;> omega

theorem goodSpans_ends (text : Str) (maxTok ovl : Nat) :
    ∀ (spans : List (Nat × Nat)) (pos : Nat), GoodSpans text maxTok ovl pos spans →
      ∀ pe ∈ spans, pe.1 ≤ pe.2 ∧ pe.2 ≤ text.length := by
  intro spans
  induction spans with
  | nil => intro pos _ pe hpe; cases hpe
  | cons head rest ih =>
    intro pos hg pe hpe
    obtain ⟨p, e⟩ := head
    simp only [GoodSpans] at hg
    obtain ⟨hp, hpp, hee, hrest⟩ := hg
    rcases List.mem_cons.mp hpe with hh | hh
    · subst hh hpp hee
      exact ⟨le_findChunkEnd text (Nat.le_of_lt hp) maxTok, findChunkEnd_le text p maxTok⟩
    · exact ih _ hrest pe hh

theorem goodSpans_chain (text : Str) (maxTok ovl : Nat) :
    ∀ (spans : List (Nat × Nat)) (pos : Nat), GoodSpans text maxTok ovl pos spans →
      List.Chain' (fun a b => b.1 ≤ a.2) spans := by
  intro spans
  induction spans with
  | nil => intro _ _; exact List.chain'_nil
  | cons head rest ih =>
    intro pos hg
    obtain ⟨p, e⟩ := head
    simp only [GoodSpans] at hg
    obtain ⟨hp, hpp, hee, hrest⟩ := hg
    cases rest with
    | nil => exact List.chain'_singleton _
    | cons head2 rest2 =>
      obtain ⟨p2, e2⟩ := head2
      rw [List.chain'_cons]
      have h2 : p2 = nextCursor pos e ovl := by
        simp only [GoodSpans] at hrest
        exact hrest.2.1
      exact ⟨by rw [h2]; exact nextCursor_le pos e ovl, ih _ hrest⟩

theorem goodSpans_lastEnd (text : Str) (maxTok ovl : Nat) :
    ∀ (spans : List (Nat × Nat)) (pos : Nat), GoodSpans text maxTok ovl pos spans →
      ∀ q, spans.getLast? = some q → q.2 = text.length := by
  intro spans
  induction spans with
  | nil => intro pos _ q hq; cases hq
  | cons head rest ih =>
    intro pos hg q hq
    obtain ⟨p, e⟩ := head
    simp only [GoodSpans] at hg
    obtain ⟨hp, hpp, hee, hrest⟩ := hg
    cases rest with
    | nil =>
      simp only [List.getLast?_singleton] at hq
      simp only [GoodSpans] at hrest
      have h1 : nextCursor pos e ovl ≤ e := nextCursor_le pos e ovl
      have h2 : e ≤ text.length := hee ▸ findChunkEnd_le text pos maxTok
      have h3 : e = text.length := by omega
      obtain rfl : (p, e) = q := Option.some_inj.mp hq
      exact h3
    | cons head2 rest2 =>
      rw [List.getLast?_cons_cons] at hq
      exact ih _ hrest q hq

theorem jsSubstring_append (text : Str) {a b c : Nat}
    (hab : a ≤ b) (hbc : b ≤ c) (hc : c ≤ text.length) :
    jsSubstring text a b ++ jsSubstring text b c = jsSubstring text a c := by
  have h1 : List.take b (List.take c text) = List.take b text := by
    rw [List.take_take, min_eq_left hbc]
  have h2 : List.take b text ++ List.drop b (List.take c text) = List.take c text := by
    conv_rhs => rw [← List.take_append_drop b (List.take c text)]
    rw [h1]
  have hlen : a ≤ (List.take b text).length := by
    rw [List.length_take]; omega
  unfold jsSubstring
  conv_rhs => rw [← h2]
  rw [List.drop_append_of_le_length hlen]

theorem jsSubstring_full (text : Str) : jsSubstring text 0 text.length = text := by
  simp [jsSubstring]

theorem reconcat_goodSpans (text : Str) (maxTok ovl : Nat) :
    ∀ (spans : List (Nat × Nat)) (pos : Nat), GoodSpans text maxTok ovl pos spans →
      spans ≠ [] → ∀ cur, cur ≤ text.length →
        reconcat text cur spans = jsSubstring text cur text.length := by
  intro spans
  induction spans with
  | nil => intro _ _ hne; exact absurd rfl hne
  | cons head rest ih =>
    intro pos hg _ cur hcur
    obtain ⟨p, e⟩ := head
    simp only [GoodSpans] at hg
    obtain ⟨hp, hpp, hee, hrest⟩ := hg
    have hele : e ≤ text.length := hee ▸ findChunkEnd_le text pos maxTok
    rw [reconcat]
    cases rest with
    | nil =>
      simp only [GoodSpans] at hrest
      have h1 : nextCursor pos e ovl ≤ e := nextCursor_le pos e ovl
      have h2 : e = text.length := by omega
      subst h2
      rw [reconcat, Nat.max_eq_right hcur]
      simp
    | cons head2 rest2 =>
      have hmax : max cur e ≤ text.length := by omega
      rw [ih _ hrest (by simp) (max cur e) hmax]
      exact jsSubstring_append text (Nat.le_max_left _ _) hmax (Nat.le_refl _)

/-- Claim C2: whenever `chunkTranscript` returns, the chunk list loses no
character of the flattened text: the chunks are contiguous substrings described
by spans whose first start is 0, each successive chunk starts at or before the
previous chunk's end, the last chunk ends at the end of the text, and
concatenating each chunk's non-overlapping portion reconstructs the flattened
text exactly. -/
theorem chunk_coverage (fuel : Nat) (t : Transcript) (maxTok ovl : Nat)
    (chunks : List Str)
    (h : chunkTranscript fuel t maxTok ovl = some chunks) :
    ∃ spans : List (Nat × Nat),
      chunks = spans.map (fun pe => jsSubstring (flattenTranscript t) pe.1 pe.2) ∧
      (spans.head?).map Prod.fst = some 0 ∧
      List.Chain' (fun a b => b.1 ≤ a.2) spans ∧
      (spans.getLast?).map Prod.snd = some (flattenTranscript t).length ∧
      reconcat (flattenTranscript t) 0 spans = flattenTranscript t := by
  unfold chunkTranscript at h
  obtain ⟨spans, hspans, hchunks⟩ := Option.map_eq_some'.mp h
  refine ⟨spans, hchunks.symm, ?_⟩
  unfold chunkSpans at hspans
  by_cases hfit : estimateTokens (flattenTranscript t) ≤ maxTok
  · rw [if_pos hfit] at hspans
    obtain rfl : [(0, (flattenTranscript t).length)] = spans := Option.some_inj.mp hspans
    refine ⟨rfl, List.chain'_singleton _, rfl, ?_⟩
    rw [reconcat, reconcat, Nat.max_eq_right (Nat.zero_le _), List.append_nil]
    exact jsSubstring_full _
  · rw [if_neg hfit] at hspans
    obtain ⟨tail, htail, hgood⟩ := chunkLoop_sound _ _ _ _ _ _ _ hspans
    rw [List.reverse_nil, List.nil_append] at htail
    subst htail
    have hlen : 1 ≤ (flattenTranscript t).length := by
      by_contra hc
      exact hfit (by simp [estimateTokens]; omega)
    cases spans with
    | nil => simp only [GoodSpans] at hgood; omega
    | cons head rest =>
      obtain ⟨p, e⟩ := head
      have hg := hgood
      simp only [GoodSpans] at hg
      obtain ⟨hp, hpp, hee, hrest⟩ := hg
      refine ⟨?_, goodSpans_chain _ _ _ _ _ hgood, ?_, ?_⟩
      · simp [hpp]
      · cases hq : ((p, e) :: rest).getLast? with
        | none => simp at hq
        | some q =>
          rw [Option.map_some']
          exact congrArg some (goodSpans_lastEnd _ _ _ _ _ hgood q hq)
      · rw [reconcat_goodSpans _ _ _ _ _ hgood (by simp) 0 (Nat.zero_le _)]
        exact jsSubstring_full _

/-- Witness for C2: the single-chunk run on the demo transcript satisfies all
coverage properties. -/
theorem chunk_coverage_witness :
    ∃ spans : List (Nat × Nat),
      [flattenTranscript demoTranscript] =
        spans.map (fun pe => jsSubstring (flattenTranscript demoTranscript) pe.1 pe.2) ∧
      (spans.head?).map Prod.fst = some 0 ∧
      List.Chain' (fun a b => b.1 ≤ a.2) spans ∧
      (spans.getLast?).map Prod.snd = some (flattenTranscript demoTranscript).length ∧
      reconcat (flattenTranscript demoTranscript) 0 spans = flattenTranscript demoTranscript :=
  chunk_coverage 1 demoTranscript 30000 2000 [flattenTranscript demoTranscript] (by decide)

theorem foldl_jsNullish {α : Type} :
    ∀ (l : List (Option α)) (init : Option α),
      l.foldl (fun acc x => jsNullish x acc) init = lastNonNull (init :: l) := by
  intro l
  induction l with
  | nil =>
    intro init
    cases init <;> simp [lastNonNull, List.filterMap_cons, id_eq]
  | cons x rest ih =>
    intro init
    rw [List.foldl_cons, ih]
    cases x with
    | none => simp [lastNonNull, jsNullish, List.filterMap_cons, id_eq]
    | some v =>
      cases init with
      | none => simp [lastNonNull, jsNullish, List.filterMap_cons, id_eq]
      | some u =>
        simp only [lastNonNull, jsNullish, List.filterMap_cons, id_eq]
        rw [List.getLast?_cons_cons]

theorem foldl_mergeCoverage2_proj {β : Type} (f : Coverage → Option β)
    (hf : ∀ a b, f (mergeCoverage2 a b) = jsNullish (f b) (f a)) :
    ∀ (l : List Coverage) (c : Coverage),
      f (l.foldl mergeCoverage2 c) =
        (l.map f).foldl (fun acc x => jsNullish x acc) (f c) := by
  intro l
  induction l with
  | nil => intro c; rfl
  | cons d rest ih =>
    intro c
    rw [List.foldl_cons, List.map_cons, List.foldl_cons, ih, hf]

theorem mergeCoverage2_field {β : Type} (f : Coverage → Option β)
    (hf : ∀ a b, f (mergeCoverage2 a b) = jsNullish (f b) (f a))
    (c : Coverage) (cs : List Coverage) :
    f (cs.foldl mergeCoverage2 c) = lastNonNull ((c :: cs).map f) := by
  rw [List.map_cons, ← foldl_jsNullish, foldl_mergeCoverage2_proj f hf]

/-- Claim C5: for every non-empty list of Coverage values the merge folds the
list in chunk order and, for every one of the seventeen fields, keeps the
accumulator's value unless the current chunk's value is non-null (so the result
is the last non-null value, field by field); in particular an explicit `false`
overwrites an earlier value and `null` never overwrites a known value. -/
theorem mergeCoverage_lastNonNull (c : Coverage) (cs : List Coverage) :
    (∃ m, mergeCoverage (c :: cs) = some m ∧
      m.clientHasInsurance = lastNonNull ((c :: cs).map (·.clientHasInsurance)) ∧
      m.clientInsuranceProvider = lastNonNull ((c :: cs).map (·.clientInsuranceProvider)) ∧
      m.clientPolicyNumber = lastNonNull ((c :: cs).map (·.clientPolicyNumber)) ∧
      m.clientCoverageEffectiveDate = lastNonNull ((c :: cs).map (·.clientCoverageEffectiveDate)) ∧
      m.clientCoverageExpirationDate = lastNonNull ((c :: cs).map (·.clientCoverageExpirationDate)) ∧
      m.clientCoverageDetails = lastNonNull ((c :: cs).map (·.clientCoverageDetails)) ∧
      m.otherPartyHasInsurance = lastNonNull ((c :: cs).map (·.otherPartyHasInsurance)) ∧
      m.otherPartyInsuranceProvider = lastNonNull ((c :: cs).map (·.otherPartyInsuranceProvider)) ∧
      m.otherPartyPolicyNumber = lastNonNull ((c :: cs).map (·.otherPartyPolicyNumber)) ∧
      m.otherPartyCoverageEffectiveDate = lastNonNull ((c :: cs).map (·.otherPartyCoverageEffectiveDate)) ∧
      m.otherPartyCoverageExpirationDate = lastNonNull ((c :: cs).map (·.otherPartyCoverageExpirationDate)) ∧
      m.otherPartyCoverageDetails = lastNonNull ((c :: cs).map (·.otherPartyCoverageDetails)) ∧
      m.medicalCoverageAvailable = lastNonNull ((c :: cs).map (·.medicalCoverageAvailable)) ∧
      m.medicalCoverageDetails = lastNonNull ((c :: cs).map (·.medicalCoverageDetails)) ∧
      m.underinsuredMotoristCoverage = lastNonNull ((c :: cs).map (·.underinsuredMotoristCoverage)) ∧
      m.policyLimits = lastNonNull ((c :: cs).map (·.policyLimits)) ∧
      m.notes = lastNonNull ((c :: cs).map (·.notes))) ∧
    (mergeCoverage [{ emptyCoverage with clientHasInsurance := none },
                    { emptyCoverage with clientHasInsurance := some false }]).map
      (·.clientHasInsurance) = some (some false) ∧
    (mergeCoverage [{ emptyCoverage with clientHasInsurance := some true },
                    { emptyCoverage with clientHasInsurance := none }]).map
      (·.clientHasInsurance) = some (some true) :=
  ⟨⟨cs.foldl mergeCoverage2 c, rfl,
    mergeCoverage2_field _ (fun _ _ => rfl) c cs,
    mergeCoverage2_field _ (fun _ _ => rfl) c cs,
    mergeCoverage2_field _ (fun _ _ => rfl) c cs,
    mergeCoverage2_field _ (fun _ _ => rfl) c cs,
    mergeCoverage2_field _ (fun _ _ => rfl) c cs,
    mergeCoverage2_field _ (fun _ _ => rfl) c cs,
    mergeCoverage2_field _ (fun _ _ => rfl) c cs,
    mergeCoverage2_field _ (fun _ _ => rfl) c cs,
    mergeCoverage2_field _ (fun _ _ => rfl) c cs,
    mergeCoverage2_field _ (fun _ _ => rfl) c cs,
    mergeCoverage2_field _ (fun _ _ => rfl) c cs,
    mergeCoverage2_field _ (fun _ _ => rfl) c cs,
    mergeCoverage2_field _ (fun _ _ => rfl) c cs,
    mergeCoverage2_field _ (fun _ _ => rfl) c cs,
    mergeCoverage2_field _ (fun _ _ => rfl) c cs,
    mergeCoverage2_field _ (fun _ _ => rfl) c cs,
    mergeCoverage2_field _ (fun _ _ => rfl) c cs⟩, rfl, rfl⟩

theorem find?_truthy_proj (f : ClientInfo → Option String) (l : List ClientInfo) :
    jsOrNullStr ((l.find? (fun i => jsTruthyStr (f i))).bind f) =
      ((l.map f).find? jsTruthyStr).join := by
  rw [List.find?_map]
  have hcomp : jsTruthyStr ∘ f = fun i => jsTruthyStr (f i) := rfl
  rw [hcomp]
  cases hf : l.find? (fun i => jsTruthyStr (f i)) with
  | none => rfl
  | some i =>
    have htr := List.find?_some hf
    simp [jsOrNullStr, htr]

theorem find?_caseType (l : List ClientInfo) :
    l.find? (fun i => caseTypeStr i.caseType != "") = l.head? := by
  cases l with
  | nil => rfl
  | cons a rest =>
    rw [List.find?_cons_of_pos]
    · rfl
    · cases a.caseType <;> rfl

theorem caseTypeStr_ne (ct : CaseType) : (caseTypeStr ct == "") = false := by
  cases ct <;> rfl

/-- Claim C6 (amended): each nullable field of the ClientInfo merge is the
first JavaScript-truthy value scanning chunks from last to first — non-null
and non-empty, since the source tests truthiness, under which the empty string
counts as absent; `caseType` is always present (a required enum), so the merge
returns the last chunk's `caseType` and the documented `mva` fallback only
fires on an empty chunk list.  An earlier chunk's known value still survives
later chunks' silence. -/
theorem mergeClientInfo_fields (infos : List ClientInfo) :
    ((mergeClientInfo infos).caseType =
        ((infos.getLast?).map (·.caseType)).getD CaseType.mva ∧
      (mergeClientInfo infos).clientName = lastTruthy (infos.map (·.clientName)) ∧
      (mergeClientInfo infos).clientDob = lastTruthy (infos.map (·.clientDob)) ∧
      (mergeClientInfo infos).clientPhone = lastTruthy (infos.map (·.clientPhone)) ∧
      (mergeClientInfo infos).clientEmail = lastTruthy (infos.map (·.clientEmail)) ∧
      (mergeClientInfo infos).clientAddress = lastTruthy (infos.map (·.clientAddress)) ∧
      (mergeClientInfo infos).incidentDate = lastTruthy (infos.map (·.incidentDate)) ∧
      (mergeClientInfo infos).incidentLocation = lastTruthy (infos.map (·.incidentLocation))) ∧
    (mergeClientInfo [aliceInfo, emptyClientInfo]).clientName = some "Alice" := by
  refine ⟨⟨?_, ?_, ?_, ?_, ?_, ?_, ?_, ?_⟩, by decide⟩
  · show (match (List.find? _ infos.reverse).map (·.caseType) with
      | some ct => if caseTypeStr ct == "" then CaseType.mva else ct
      | none => CaseType.mva) = _
    rw [find?_caseType, List.head?_reverse]
    cases h : infos.getLast? with
    | none => rfl
    | some i => simp [caseTypeStr_ne]
  all_goals
    first
    | (show jsOrNullStr ((List.find? _ infos.reverse).bind _) = _
       rw [find?_truthy_proj]
       unfold lastTruthy
       rw [List.map_reverse])

/-- Counterexample to claim C6 as stated: chunk 2 carries the non-null empty
string as `clientName`; scanning last to first for the first *non-null* value
(the claim's rule) yields `""`, but the code tests JavaScript truthiness, skips
the empty string, and returns `"Alice"`. -/
theorem clientInfo_empty_string_counterexample :
    firstNonNullFromLast ([aliceInfo, blankNameInfo].map (·.clientName)) = some "" ∧
    (mergeClientInfo [aliceInfo, blankNameInfo]).clientName = some "Alice" :=
  ⟨by decide, by decide⟩

theorem collectFrom_eq (b : Backend) :
    ∀ (n i : Nat), collectFrom b i n = (List.range' i n).filterMap (attemptChunk b) := by
  intro n
  induction n with
  | zero => intro i; rfl
  | succ k ih =>
    intro i
    rw [List.range'_succ, List.filterMap_cons, collectFrom]
    cases h : attemptChunk b i <;> simp [h, ih]

theorem collectExtractions_eq (b : Backend) (numChunks : Nat) :
    collectExtractions b numChunks = (List.range numChunks).filterMap (attemptChunk b) := by
  rw [collectExtractions, collectFrom_eq, List.range_eq_range']

theorem mergeChunkExtractions_isSome (l : List ChunkExtraction) (h : l ≠ []) :
    ∃ m, mergeChunkExtractions l = some m := by
  match l with
  | [] => exact absurd rfl h
  | [e] => exact ⟨e, rfl⟩
  | e₁ :: e₂ :: rest => exact ⟨_, rfl⟩

/-- Claim C3: the orchestrator raises its terminal error exactly when every
chunk's 4-way extraction fails even after its retry; whenever at least one
chunk succeeds it returns the merge of exactly the successful chunks'
extractions, in transcript order. -/
theorem processChunks_error_iff (b : Backend) (numChunks : Nat) :
    (processChunks b numChunks = Except.error "All chunks failed to process" ↔
      ∀ i < numChunks, attemptChunk b i = none) ∧
    collectExtractions b numChunks = (List.range numChunks).filterMap (attemptChunk b) ∧
    ((∃ i, i < numChunks ∧ attemptChunk b i ≠ none) →
      ∃ merged,
        mergeChunkExtractions ((List.range numChunks).filterMap (attemptChunk b)) = some merged ∧
        processChunks b numChunks = Except.ok merged) := by
  have hcoll := collectExtractions_eq b numChunks
  have hnil : collectExtractions b numChunks = [] ↔ ∀ i < numChunks, attemptChunk b i = none := by
    rw [hcoll, List.filterMap_eq_nil_iff]
    constructor
    · intro h i hi; exact h i (List.mem_range.mpr hi)
    · intro h a ha; exact h a (List.mem_range.mp ha)
  refine ⟨?_, hcoll, ?_⟩
  · constructor
    · intro h
      rw [← hnil]
      by_contra hc
      obtain ⟨m, hm⟩ := mergeChunkExtractions_isSome _ hc
      rw [processChunks, if_neg (by simpa [List.length_eq_zero] using hc), hm] at h
      cases h
    · intro h
      rw [processChunks, if_pos (by simp [List.length_eq_zero, hnil.mpr h])]
  · intro ⟨i, hi, hne⟩
    have hcne : collectExtractions b numChunks ≠ [] := by
      intro hc
      exact hne (hnil.mp hc i hi)
    obtain ⟨m, hm⟩ := mergeChunkExtractions_isSome _ hcne
    refine ⟨m, by rw [← hcoll]; exact hm, ?_⟩
    rw [processChunks, if_neg (by simpa [List.length_eq_zero] using hcne), hm]

/-- Witness for C3: with a backend whose chunk 0 succeeds immediately and whose
chunk 1 always fails, processing two chunks returns the merge of the single
successful extraction. -/
theorem processChunks_error_iff_witness :
    ∃ merged,
      mergeChunkExtractions ((List.range 2).filterMap (attemptChunk demoBackend)) = some merged ∧
      processChunks demoBackend 2 = Except.ok merged :=
  (processChunks_error_iff demoBackend 2).2.2 ⟨0, by decide, by decide⟩

/-- Counterexample to claim C4 as stated: `MAX_RETRIES` is configured as 2, and
a retry budget of two would rescue a backend that succeeds on its second retry
(attempt index 2); the code performs exactly one retry, so that chunk is
skipped and, it being the only chunk, processing fails terminally. -/
theorem retry_budget_counterexample :
    AI_CONFIG.MAX_RETRIES = 2 ∧
    thirdTryBackend 0 2 = some demoExtraction ∧
    processChunks thirdTryBackend 1 = Except.error "All chunks failed to process" :=
  ⟨rfl, rfl, rfl⟩

/-- Claim C4 (amended): on a chunk failure the orchestrator retries the whole
4-way call exactly once — the code only tests `MAX_RETRIES > 0`, never uses the
configured value 2 as a count, and consults no attempt beyond the first retry —
before the chunk is skipped and processing continues with the remaining
chunks. -/
theorem retry_once_then_skip :
    (∀ b b' : Backend, (∀ i k, k ≤ 1 → b i k = b' i k) →
      ∀ numChunks, processChunks b numChunks = processChunks b' numChunks) ∧
    (∀ (b : Backend) (i : Nat), b i 0 = none → attemptChunk b i = b i 1) ∧
    (∀ (b : Backend) (i : Nat) (e : ChunkExtraction),
      b i 0 = some e → attemptChunk b i = some e) := by
  refine ⟨?_, ?_, ?_⟩
  · intro b b' h n
    have hatt : ∀ i, attemptChunk b i = attemptChunk b' i := by
      intro i
      unfold attemptChunk
      rw [h i 0 (by omega), h i 1 (by omega)]
    unfold processChunks
    rw [collectExtractions_eq, collectExtractions_eq,
      List.filterMap_congr (fun i _ => hatt i)]
  · intro b i h
    simp only [attemptChunk, h]
    rw [if_pos (by decide)]
  · intro b i e h
    simp only [attemptChunk, h]

/-- Witness for C4's amended theorem at concrete backends. -/
theorem retry_once_then_skip_witness :
    processChunks failBackend 1 =
      processChunks (fun i k => if k ≤ 1 then failBackend i k else some demoExtraction) 1 ∧
    attemptChunk failBackend 0 = failBackend 0 1 ∧
    attemptChunk demoBackend 0 = some demoExtraction :=
  ⟨retry_once_then_skip.1 failBackend _ (fun _ k hk => by rw [if_pos hk]) 1,
   retry_once_then_skip.2.1 failBackend 0 rfl,
   retry_once_then_skip.2.2 demoBackend 0 demoExtraction (by decide)⟩

theorem mergeLiability_atFault_eq (ls : List Liability) :
    (mergeLiability ls).atFault =
      ((ls.map (·.atFault)).find? (fun f => f != AtFault.unclear)).getD AtFault.unclear := rfl

theorem mergeLiability_fp_eq (ls : List Liability) :
    (mergeLiability ls).faultPercentages =
      (if ((ls.map (·.atFault)).find? (fun f => f != AtFault.unclear)).getD AtFault.unclear
          = AtFault.shared then
        if 0 < (sharedWithPerc ls).length then
          some ⟨jsRoundDiv ((sharedWithPerc ls).foldl
                  (fun s l => s + ((l.faultPercentages.map (·.client)).getD 0)) 0)
                  (sharedWithPerc ls).length,
                jsRoundDiv ((sharedWithPerc ls).foldl
                  (fun s l => s + ((l.faultPercentages.map (·.otherParty)).getD 0)) 0)
                  (sharedWithPerc ls).length⟩
        else none
      else none) := rfl

theorem sharedWithPerc_isSome (ls : List Liability) :
    ∀ l ∈ sharedWithPerc ls, l.faultPercentages.isSome = true := by
  intro l hl
  exact ((Bool.and_eq_true _ _).mp (List.mem_filter.mp hl).2).2

theorem foldl_add_getD (g : Liability → Nat) :
    ∀ (l : List Liability) (s : Nat),
      l.foldl (fun acc x => acc + g x) s = s + (l.map g).sum := by
  intro l
  induction l with
  | nil => intro s; simp
  | cons a rest ih =>
    intro s
    rw [List.foldl_cons, ih, List.map_cons, List.sum_cons]
    omega

theorem filterMap_fp (proj : FaultPercentages → Nat) :
    ∀ (l : List Liability), (∀ x ∈ l, x.faultPercentages.isSome = true) →
      ((l.filterMap (·.faultPercentages)).map proj).sum =
        (l.map (fun x => (x.faultPercentages.map proj).getD 0)).sum := by
  intro l
  induction l with
  | nil => intro _; rfl
  | cons a rest ih =>
    intro h
    obtain ⟨fp, hfp⟩ := Option.isSome_iff_exists.mp (h a (by simp))
    rw [List.filterMap_cons]
    simp only [hfp]
    rw [List.map_cons, List.sum_cons, List.map_cons, List.sum_cons,
      ih (fun x hx => h x (by simp [hx]))]
    simp [hfp]

theorem filterMap_fp_length :
    ∀ (l : List Liability), (∀ x ∈ l, x.faultPercentages.isSome = true) →
      (l.filterMap (·.faultPercentages)).length = l.length := by
  intro l
  induction l with
  | nil => intro _; rfl
  | cons a rest ih =>
    intro h
    obtain ⟨fp, hfp⟩ := Option.isSome_iff_exists.mp (h a (by simp))
    rw [List.filterMap_cons]
    simp only [hfp]
    rw [List.length_cons, List.length_cons, ih (fun x hx => h x (by simp [hx]))]

theorem mergeLiability_fp_shared (ls : List Liability)
    (hsh : (mergeLiability ls).atFault = AtFault.shared)
    (hne : sharedPercList ls ≠ []) :
    (mergeLiability ls).faultPercentages =
      some ⟨jsRoundDiv (((sharedPercList ls).map (·.client)).sum) (sharedPercList ls).length,
            jsRoundDiv (((sharedPercList ls).map (·.otherParty)).sum)
              (sharedPercList ls).length⟩ := by
  rw [mergeLiability_atFault_eq] at hsh
  have hlen := filterMap_fp_length (sharedWithPerc ls) (sharedWithPerc_isSome ls)
  have hpos : 0 < (sharedWithPerc ls).length := by
    have h1 := List.length_pos.mpr hne
    simp only [sharedPercList] at h1
    omega
  rw [mergeLiability_fp_eq, if_pos hsh, if_pos hpos]
  simp only [sharedPercList]
  rw [foldl_add_getD, foldl_add_getD, Nat.zero_add, Nat.zero_add,
    ← filterMap_fp (·.client) (sharedWithPerc ls) (sharedWithPerc_isSome ls),
    ← filterMap_fp (·.otherParty) (sharedWithPerc ls) (sharedWithPerc_isSome ls),
    filterMap_fp_length (sharedWithPerc ls) (sharedWithPerc_isSome ls)]

/-- Claim C7: `faultPercentages` is computed only when the merged `atFault` is
`shared`, and then equals the averages of the client and otherParty
percentages taken over exactly the chunks that reported `shared` with
percentages present, each average rounded to the nearest integer; merging
shared 40/60 with shared 20/80 yields 30/70. -/
theorem mergeLiability_shared_average (ls : List Liability) :
    ((mergeLiability ls).atFault ≠ AtFault.shared →
      (mergeLiability ls).faultPercentages = none) ∧
    ((mergeLiability ls).atFault = AtFault.shared → sharedPercList ls ≠ [] →
      (mergeLiability ls).faultPercentages =
        some ⟨jsRoundDiv (((sharedPercList ls).map (·.client)).sum)
                (sharedPercList ls).length,
              jsRoundDiv (((sharedPercList ls).map (·.otherParty)).sum)
                (sharedPercList ls).length⟩) ∧
    (mergeLiability [sharedLia40, sharedLia20]).faultPercentages = some ⟨30, 70⟩ := by
  refine ⟨?_, fun hsh hne => mergeLiability_fp_shared ls hsh hne, by decide⟩
  intro hns
  rw [mergeLiability_atFault_eq] at hns
  rw [mergeLiability_fp_eq, if_neg hns]

/-- Witness for C7's conditional parts at concrete liabilities. -/
theorem mergeLiability_shared_average_witness :
    (mergeLiability [unclearLiability]).faultPercentages = none ∧
    (mergeLiability [sharedLia40, sharedLia20]).faultPercentages =
      some ⟨jsRoundDiv (((sharedPercList [sharedLia40, sharedLia20]).map (·.client)).sum)
              (sharedPercList [sharedLia40, sharedLia20]).length,
            jsRoundDiv (((sharedPercList [sharedLia40, sharedLia20]).map (·.otherParty)).sum)
              (sharedPercList [sharedLia40, sharedLia20]).length⟩ :=
  ⟨(mergeLiability_shared_average [unclearLiability]).1 (by decide),
   (mergeLiability_shared_average [sharedLia40, sharedLia20]).2.1 (by decide) (by decide)⟩

/-- Counterexample to claim C8 as stated: the schema leaves `faultPercentages`
optional, so a chunk can report `shared` without percentages; merging such a
chunk with an `unclear` one yields a merged `atFault` of `shared` with
`faultPercentages` absent. -/
theorem shared_without_percentages_counterexample :
    (mergeLiability [sharedNoPerc, unclearLiability]).atFault = AtFault.shared ∧
    (mergeLiability [sharedNoPerc, unclearLiability]).faultPercentages = none :=
  ⟨by decide, by decide⟩

theorem sum_map_le {α : Type} (proj : α → Nat) (c : Nat) :
    ∀ l : List α, (∀ x ∈ l, proj x ≤ c) → (l.map proj).sum ≤ c * l.length := by
  intro l
  induction l with
  | nil => intro _; simp
  | cons a rest ih =>
    intro h
    rw [List.map_cons, List.sum_cons, List.length_cons]
    have h1 := h a (by simp)
    have h2 := ih (fun x hx => h x (by simp [hx]))
    have h3 : c * (rest.length + 1) = c * rest.length + c := by ring
    omega

theorem jsRoundDiv_le (S L c : Nat) (hL : 0 < L) (hS : S ≤ c * L) :
    jsRoundDiv S L ≤ c := by
  unfold jsRoundDiv
  have hlt : 2 * S + L < (c + 1) * (2 * L) := by nlinarith
  have hdiv : (2 * S + L) / (2 * L) < c + 1 :=
    (Nat.div_lt_iff_lt_mul (by omega)).mpr hlt
  omega

/-- Claim C8 (amended): whenever the merged `atFault` is `shared` and at least
one chunk reported `shared` with percentages present, the merged
`faultPercentages` is present and both components are integers between 0 and
100, provided every input's percentages satisfy the schema bound 0–100.  (As
stated the claim fails when no shared chunk supplied percentages.) -/
theorem mergeLiability_shared_bounds (ls : List Liability)
    (hbound : ∀ l ∈ ls, ∀ fp, l.faultPercentages = some fp →
      fp.client ≤ 100 ∧ fp.otherParty ≤ 100)
    (hsh : (mergeLiability ls).atFault = AtFault.shared)
    (hne : sharedPercList ls ≠ []) :
    ∃ fp, (mergeLiability ls).faultPercentages = some fp ∧
      fp.client ≤ 100 ∧ fp.otherParty ≤ 100 := by
  have hmem : ∀ fp ∈ sharedPercList ls, fp.client ≤ 100 ∧ fp.otherParty ≤ 100 := by
    intro fp hfp
    obtain ⟨l, hl, hfpl⟩ := List.mem_filterMap.mp hfp
    exact hbound l (List.mem_filter.mp hl).1 fp hfpl
  have hL : 0 < (sharedPercList ls).length := List.length_pos.mpr hne
  refine ⟨_, mergeLiability_fp_shared ls hsh hne, ?_, ?_⟩
  · exact jsRoundDiv_le _ _ 100 hL
      (sum_map_le (·.client) 100 (sharedPercList ls) (fun x hx => (hmem x hx).1))
  · exact jsRoundDiv_le _ _ 100 hL
      (sum_map_le (·.otherParty) 100 (sharedPercList ls) (fun x hx => (hmem x hx).2))

/-- Witness for C8's amended theorem. -/
theorem mergeLiability_shared_bounds_witness :
    ∃ fp, (mergeLiability [sharedLia40]).faultPercentages = some fp ∧
      fp.client ≤ 100 ∧ fp.otherParty ≤ 100 :=
  mergeLiability_shared_bounds [sharedLia40]
    (by
      intro l hl fp hfp
      rw [List.mem_singleton] at hl
      subst hl
      obtain rfl : (⟨40, 60⟩ : FaultPercentages) = fp := Option.some_inj.mp hfp
      exact ⟨by decide, by decide⟩)
    (by decide) (by decide)
